import Mathlib

/-!
# Verification of the `tui-rs-tree-widget` core

Shallow embedding of the tree-widget core of the repository:
the flattening engine (`src/flatten.rs`), the tree item constructors
(`src/tree_item.rs`), the navigation state (`src/tree_state.rs`), and the
viewport windowing of the stateful render.  Rust `usize` values are
modelled as `Nat`; saturating arithmetic saturates at `USIZE_MAX`;
hash sets of identifier paths are modelled as lists of paths queried
only through membership.
-/

namespace TreeWidget

/-- `usize::MAX` on the usual 64-bit target. -/
def USIZE_MAX : Nat := 2 ^ 64 - 1

/-- Rust `usize::saturating_add`. -/
def satAdd (a b : Nat) : Nat := min (a + b) USIZE_MAX

/-- One item of the tree forest, `TreeItem` from `src/tree_item.rs`:
an identifier unique among its siblings, the displayed text (modelled by
its height, the only attribute the core algorithms read), and children. -/
inductive TreeItem (α : Type) where
  | mk (identifier : α) (height : Nat) (children : List (TreeItem α))
deriving Repr

def TreeItem.identifier : TreeItem α → α
  | .mk i _ _ => i

def TreeItem.height : TreeItem α → Nat
  | .mk _ h _ => h

def TreeItem.children : TreeItem α → List (TreeItem α)
  | .mk _ _ c => c

/-- A flattened visible entry, `Flattened` from `src/flatten.rs`. -/
structure Flattened (α : Type) where
  identifier : List α
  hasNoChildren : Bool
  height : Nat
deriving Repr, DecidableEq

/-- Zero based depth (`Flattened::depth`). -/
def Flattened.depth (f : Flattened α) : Nat := f.identifier.length - 1

/-- `flatten` from `src/flatten.rs` (lines 28-61): depth-first pre-order
walk emitting every item, recursing into children exactly when the
child's identifier path is in the open set. -/
def flatten [DecidableEq α] (opened : List (List α)) :
    List (TreeItem α) → List α → List (Flattened α)
  | [], _ => []
  | .mk ident h children :: rest, current =>
    let childIdentifier := current ++ [ident]
    let childResult :=
      if childIdentifier ∈ opened then flatten opened children childIdentifier else []
    { identifier := childIdentifier
      hasNoChildren := children.isEmpty
      height := h } :: (childResult ++ flatten opened rest current)
termination_by items _ => sizeOf items

/-- `total_required_height` from `src/flatten.rs` (lines 66-87):
left-to-right saturating accumulation, recursing below open items.
The Rust loop threads an accumulator; `acc` is that accumulator. -/
def total_required_height [DecidableEq α] (opened : List (List α)) :
    List (TreeItem α) → List α → Nat → Nat
  | [], _, acc => acc
  | .mk ident h children :: rest, current, acc =>
    let childIdentifier := current ++ [ident]
    let acc1 := satAdd acc h
    let acc2 :=
      if childIdentifier ∈ opened then
        satAdd acc1 (total_required_height opened children childIdentifier 0)
      else acc1
    total_required_height opened rest current acc2
termination_by items _ _ => sizeOf items

/-- `TreeItem::example` from `src/tree_item.rs` (lines 143-165):
items `a`(leaf), `b`(children `c`, `d`(children `e`, `f`), `g`), `h`(leaf),
every text a single line (height 1). -/
def TreeItem.example : List (TreeItem String) :=
  [ .mk "a" 1 []
  , .mk "b" 1
      [ .mk "c" 1 []
      , .mk "d" 1 [.mk "e" 1 [], .mk "f" 1 []]
      , .mk "g" 1 []
      ]
  , .mk "h" 1 []
  ]

/-- Rust `Iterator::position`: index of the first element satisfying the
predicate. -/
def position (p : α → Bool) : List α → Option Nat
  | [] => none
  | x :: rest => if p x then some 0 else (position p rest).map (· + 1)

/-- `TreeItem::new` from `src/tree_item.rs` (lines 67-87): fallible
construction of a parent item.  The Rust code collects the children's
identifiers into a hash set and errors when the set is smaller than the
list (i.e. on a duplicate); the hash-set cardinality is modelled by
`List.dedup`.  The error string is the Rust error message. -/
def TreeItem.new [DecidableEq α] (identifier : α) (height : Nat)
    (children : List (TreeItem α)) : Except String (TreeItem α) :=
  if (children.map TreeItem.identifier).dedup.length = children.length then
    .ok (.mk identifier height children)
  else
    .error "The children contain duplicate identifiers"

/-- `ratatui::layout::Rect`, coordinates in cells (`u16` in Rust). -/
structure Rect where
  x : Nat
  y : Nat
  width : Nat
  height : Nat
deriving Repr, DecidableEq

/-- `u16::MAX`: ratatui `Rect` edge arithmetic saturates at this bound. -/
def U16_MAX : Nat := 2 ^ 16 - 1

def Rect.ZERO : Rect := ⟨0, 0, 0, 0⟩

def Rect.right (r : Rect) : Nat := min (r.x + r.width) U16_MAX

def Rect.bottom (r : Rect) : Nat := min (r.y + r.height) U16_MAX

/-- `ratatui::layout::Position`. -/
structure Position where
  x : Nat
  y : Nat
deriving Repr, DecidableEq

/-- `Rect::contains`. -/
def Rect.contains (r : Rect) (p : Position) : Prop :=
  r.x ≤ p.x ∧ p.x < r.right ∧ r.y ≤ p.y ∧ p.y < r.bottom

instance (r : Rect) (p : Position) : Decidable (r.contains p) := by
  unfold Rect.contains; infer_instance

/-- `TreeState` from `src/tree_state.rs` (lines 23-35). -/
structure TreeState (α : Type) where
  offset : Nat
  opened : List (List α)
  selected : List α
  ensureSelectedInViewOnNextRender : Bool
  lastArea : Rect
  lastBiggestIndex : Nat
  lastIdentifiers : List (List α)
  lastRenderedIdentifiers : List (Nat × List α)
deriving Repr, DecidableEq

/-- `Default` impl for `TreeState` (`src/tree_state.rs` lines 37-51). -/
def TreeState.default : TreeState α :=
  { offset := 0
    opened := []
    selected := []
    ensureSelectedInViewOnNextRender := false
    lastArea := Rect.ZERO
    lastBiggestIndex := 0
    lastIdentifiers := []
    lastRenderedIdentifiers := [] }

variable [DecidableEq α]

/-- `TreeState::select`. -/
def TreeState.select (s : TreeState α) (identifier : List α) :
    TreeState α × Bool :=
  ({ s with ensureSelectedInViewOnNextRender := true, selected := identifier },
    if s.selected = identifier then false else true)

/-- `TreeState::open` (the name `open` is a Lean keyword).  The hash-set
insertion is modelled on a duplicate-free list of paths. -/
def TreeState.openNode (s : TreeState α) (identifier : List α) :
    TreeState α × Bool :=
  if identifier = [] then (s, false)
  else if identifier ∈ s.opened then (s, false)
  else ({ s with opened := identifier :: s.opened }, true)

/-- `TreeState::close`. -/
def TreeState.close (s : TreeState α) (identifier : List α) :
    TreeState α × Bool :=
  if identifier ∈ s.opened then
    ({ s with opened := s.opened.erase identifier }, true)
  else (s, false)

/-- `TreeState::toggle`. -/
def TreeState.toggle (s : TreeState α) (identifier : List α) :
    TreeState α × Bool :=
  if identifier = [] then (s, false)
  else if identifier ∈ s.opened then s.close identifier
  else s.openNode identifier

/-- `TreeState::toggle_selected`.  Rust reimplements `close` inline here
(because of borrows). -/
def TreeState.toggleSelected (s : TreeState α) : TreeState α × Bool :=
  if s.selected = [] then (s, false)
  else if s.selected ∈ s.opened then
    ({ s with
        ensureSelectedInViewOnNextRender := true
        opened := s.opened.erase s.selected }, true)
  else
    ({ s with ensureSelectedInViewOnNextRender := true }).openNode s.selected

/-- `TreeState::close_all`. -/
def TreeState.closeAll (s : TreeState α) : TreeState α × Bool :=
  if s.opened = [] then (s, false) else ({ s with opened := [] }, true)

/-- `TreeState::select_first`. -/
def TreeState.selectFirst (s : TreeState α) : TreeState α × Bool :=
  s.select (s.lastIdentifiers.headD [])

/-- `TreeState::select_last`. -/
def TreeState.selectLast (s : TreeState α) : TreeState α × Bool :=
  s.select (s.lastIdentifiers.getLastD [])

/-- `TreeState::select_visible_index`. -/
def TreeState.selectVisibleIndex (s : TreeState α) (newIndex : Nat) :
    TreeState α × Bool :=
  s.select (s.lastIdentifiers.getD (min newIndex s.lastBiggestIndex) [])

/-- `TreeState::select_relative`: look up the current selection's index
in the identifiers of the last render, feed it to the change function,
clamp to `last_biggest_index` and select the resulting entry. -/
def TreeState.selectRelative (s : TreeState α)
    (changeFunction : Option Nat → Nat) : TreeState α × Bool :=
  s.select
    (s.lastIdentifiers.getD
      (min
        (changeFunction
          (position (fun identifier => decide (identifier = s.selected))
            s.lastIdentifiers))
        s.lastBiggestIndex)
      [])

/-- `TreeState::rendered_at` (`src/tree_state.rs` lines 274-285). -/
def TreeState.renderedAt (s : TreeState α) (p : Position) :
    Option (List α) :=
  if s.lastArea.contains p then
    ((s.lastRenderedIdentifiers.reverse.find?
        (fun pr => decide (pr.1 ≤ p.y))).map (·.2))
  else none

/-- `TreeState::click_at` (`src/tree_state.rs` lines 292-302). -/
def TreeState.clickAt (s : TreeState α) (p : Position) :
    TreeState α × Bool :=
  match s.renderedAt p with
  | some identifier =>
      if identifier = s.selected then s.toggleSelected
      else s.select identifier
  | none => (s, false)

/-- `TreeState::scroll_selected_into_view`. -/
def TreeState.scrollSelectedIntoView (s : TreeState α) : TreeState α :=
  { s with ensureSelectedInViewOnNextRender := true }

/-- `TreeState::scroll_up` (`src/tree_state.rs` lines 313-317):
saturating decrease, returning the before/after comparison. -/
def TreeState.scrollUp (s : TreeState α) (lines : Nat) :
    TreeState α × Bool :=
  ({ s with offset := s.offset - lines },
    if s.offset = s.offset - lines then false else true)

/-- `TreeState::scroll_down` (`src/tree_state.rs` lines 323-330):
saturating increase clamped to `last_biggest_index`, returning the
before/after comparison. -/
def TreeState.scrollDown (s : TreeState α) (lines : Nat) :
    TreeState α × Bool :=
  ({ s with offset := min (satAdd s.offset lines) s.lastBiggestIndex },
    if s.offset = min (satAdd s.offset lines) s.lastBiggestIndex then false
    else true)

/-- `TreeState::key_up`. -/
def TreeState.keyUp (s : TreeState α) : TreeState α × Bool :=
  s.selectRelative fun current =>
    match current with
    | none => USIZE_MAX
    | some current => current - 1

/-- `TreeState::key_down`. -/
def TreeState.keyDown (s : TreeState α) : TreeState α × Bool :=
  s.selectRelative fun current =>
    match current with
    | none => 0
    | some current => satAdd current 1

/-- `TreeState::key_left`: close the selected node when it is open,
otherwise move the selection to its parent (popping the last path
segment). -/
def TreeState.keyLeft (s : TreeState α) : TreeState α × Bool :=
  if s.selected ∈ s.opened then
    ({ s with
        ensureSelectedInViewOnNextRender := true
        opened := s.opened.erase s.selected }, true)
  else
    ({ s with
        ensureSelectedInViewOnNextRender := true
        selected := s.selected.dropLast },
      if s.selected = [] then false else true)

/-- `TreeState::key_right`. -/
def TreeState.keyRight (s : TreeState α) : TreeState α × Bool :=
  if s.selected = [] then (s, false)
  else
    ({ s with ensureSelectedInViewOnNextRender := true }).openNode s.selected

/-! ## The viewport windowing of the stateful render

The `StatefulWidget` render for this `TreeState` variant (the one that
consumes `ensure_selected_in_view_on_next_render` and fills the
`last_*` bookkeeping) is not among the source files; it is modelled from
the spec, section 4.4 (steps 1-9). -/

/-- Modelled from the spec: step 5 of the windowing algorithm, the
forward accumulation.  Starting from the start index, accumulate node
heights until adding the next node's height would exceed the available
row count; returns the number of nodes that fit and the accumulated
height. -/
def forwardCount (avail : Nat) : List Nat → Nat → Nat × Nat
  | [], height => (0, height)
  | h :: rest, height =>
    if avail < height + h then (0, height)
    else
      let r := forwardCount avail rest (height + h)
      (r.1 + 1, r.2)

/-- Modelled from the spec: the shrink-from-the-front part of step 6.
While the accumulated height exceeds the available rows, increment the
start index and subtract the front node's height (saturating).  The
out-of-bounds guard corresponds to the front index running past the
node list, where the Rust indexing would panic; the windowing invariant
(the tracked height never exceeds the remaining window sum) keeps that
branch unreachable. -/
def shrinkFront (heights : List Nat) (avail : Nat)
    (start height : Nat) : Nat × Nat :=
  if avail < height then
    if start < heights.length then
      shrinkFront heights avail (start + 1) (height - heights.getD start 0)
    else (start, height)
  else (start, height)
termination_by heights.length - start

/-- Modelled from the spec: the grow-the-window part of step 6.  While
the selection's index is `≥ end`, grow the window forward (adding the
next node's height, saturating) and shrink from the front whenever the
total height exceeds the available rows. -/
def growWindow (heights : List Nat) (avail selIdx : Nat)
    (start e height : Nat) : Nat × Nat :=
  if e ≤ selIdx then
    growWindow heights avail selIdx
      (shrinkFront heights avail start (satAdd height (heights.getD e 0))).1
      (e + 1)
      (shrinkFront heights avail start (satAdd height (heights.getD e 0))).2
  else (start, e)
termination_by selIdx + 1 - e

/-- Modelled from the spec: step 9's bookkeeping rows, one `(row_y,
identifier_path)` pair per rendered node, `y` being the running
cumulative height below the top of the inner area. -/
def buildRows (y : Nat) : List (Flattened α) → List (Nat × List α)
  | [] => []
  | f :: rest => (y, f.identifier) :: buildRows (y + f.height) rest

/-- Modelled from the spec: step 4's lookup.  The selection's index in
the flattened list, when `ensure_selected_in_view` is set and a
selection exists; `none` when the flag is unset, nothing is selected, or
the lookup fails. -/
def ensureIndex (nodes : List (Flattened α)) (s : TreeState α) :
    Option Nat :=
  if s.ensureSelectedInViewOnNextRender && !s.selected.isEmpty then
    position (fun n => decide (n.identifier = s.selected)) nodes
  else none

/-- Modelled from the spec: steps 3-6 of the windowing algorithm,
computing the half-open window `[start, end)` of flattened indices to
render. -/
def computeWindow (heights : List Nat) (avail offset lbi : Nat)
    (ensureIdx : Option Nat) : Nat × Nat :=
  let start0 := min offset lbi
  let start1 :=
    match ensureIdx with
    | some i => min start0 i
    | none => start0
  let fc := forwardCount avail (heights.drop start1) 0
  let end0 := start1 + fc.1
  match ensureIdx with
  | some i => growWindow heights avail i start1 end0 fc.2
  | none => (start1, end0)

/-- Modelled from the spec: the render call (spec section 4.4), which is
not among the source files for this `TreeState` variant.  Step 1: on a
degenerate area, no-op but clear the hit-test bookkeeping.  Step 2:
flatten and record `last_biggest_index`; no-op when empty.  Steps 3-6:
compute the window.  Step 7: persist `offset = start` and clear the
ensure flag.  Step 9: record the bookkeeping of the rendered rows. -/
def render (items : List (TreeItem α)) (area : Rect) (s : TreeState α) :
    TreeState α :=
  if area.width < 1 ∨ area.height < 1 then
    { s with lastArea := Rect.ZERO, lastRenderedIdentifiers := [] }
  else
    let nodes := flatten s.opened items []
    let lbi := nodes.length - 1
    if nodes.isEmpty then
      { s with
        lastBiggestIndex := lbi
        lastArea := Rect.ZERO
        lastIdentifiers := []
        lastRenderedIdentifiers := [] }
    else
      let w :=
        computeWindow (nodes.map Flattened.height) area.height s.offset lbi
          (ensureIndex nodes s)
      { s with
        offset := w.1
        ensureSelectedInViewOnNextRender := false
        lastBiggestIndex := lbi
        lastArea := area
        lastIdentifiers := nodes.map Flattened.identifier
        lastRenderedIdentifiers :=
          buildRows area.y ((nodes.drop w.1).take (w.2 - w.1)) }

/-! ## Helper lemmas -/

lemma dedup_length_eq_iff [DecidableEq β] (l : List β) :
    l.dedup.length = l.length ↔ l.Nodup := by
  constructor
  · intro hlen
    have hsub : List.Sublist l.dedup l := l.dedup_sublist
    have heq := hsub.eq_of_length hlen
    rw [← heq]
    exact l.nodup_dedup
  · intro hnd
    rw [List.dedup_eq_self.mpr hnd]

lemma opened_openNode (s : TreeState α) (identifier : List α) :
    (s.openNode identifier).1.opened = s.opened ∨
      ((s.openNode identifier).1.opened = identifier :: s.opened ∧
        identifier ≠ []) := by
  unfold TreeState.openNode
  split
  · exact .inl rfl
  · split
    · exact .inl rfl
    · exact .inr ⟨rfl, by assumption⟩

lemma root_opened_openNode {s : TreeState α} (h : [] ∉ s.opened)
    (identifier : List α) : [] ∉ (s.openNode identifier).1.opened := by
  rcases opened_openNode s identifier with heq | ⟨heq, hne⟩ <;> rw [heq]
  · exact h
  · intro hmem
    rcases List.mem_cons.mp hmem with rfl | hmem
    · exact hne rfl
    · exact h hmem

lemma root_opened_erase {s : List (List α)} (h : [] ∉ s)
    (identifier : List α) : [] ∉ s.erase identifier :=
  fun hmem => h (List.mem_of_mem_erase hmem)

lemma root_opened_toggleSelected {s : TreeState α} (h : [] ∉ s.opened) :
    [] ∉ s.toggleSelected.1.opened := by
  unfold TreeState.toggleSelected
  split
  · exact h
  · split
    · exact root_opened_erase h _
    · exact root_opened_openNode
        (s := { s with ensureSelectedInViewOnNextRender := true }) h
        s.selected

lemma root_opened_close {s : TreeState α} (h : [] ∉ s.opened)
    (identifier : List α) : [] ∉ (s.close identifier).1.opened := by
  unfold TreeState.close
  split
  · exact root_opened_erase h _
  · exact h

lemma root_opened_toggle {s : TreeState α} (h : [] ∉ s.opened)
    (identifier : List α) : [] ∉ (s.toggle identifier).1.opened := by
  unfold TreeState.toggle
  split
  · exact h
  · split
    · exact root_opened_close h _
    · exact root_opened_openNode h _

lemma root_opened_closeAll {s : TreeState α} (h : [] ∉ s.opened) :
    [] ∉ s.closeAll.1.opened := by
  unfold TreeState.closeAll
  split
  · exact h
  · simp

lemma root_opened_clickAt {s : TreeState α} (h : [] ∉ s.opened)
    (p : Position) : [] ∉ (s.clickAt p).1.opened := by
  unfold TreeState.clickAt
  split
  · split
    · exact root_opened_toggleSelected h
    · exact h
  · exact h

lemma root_opened_keyLeft {s : TreeState α} (h : [] ∉ s.opened) :
    [] ∉ s.keyLeft.1.opened := by
  unfold TreeState.keyLeft
  split
  · exact root_opened_erase h _
  · exact h

lemma root_opened_keyRight {s : TreeState α} (h : [] ∉ s.opened) :
    [] ∉ s.keyRight.1.opened := by
  unfold TreeState.keyRight
  split
  · exact h
  · exact root_opened_openNode
      (s := { s with ensureSelectedInViewOnNextRender := true }) h
      s.selected

lemma opened_render (items : List (TreeItem α)) (area : Rect)
    (s : TreeState α) : (render items area s).opened = s.opened := by
  simp only [render]
  split
  · rfl
  · split <;> rfl

lemma satAdd_assoc (a b c : Nat) :
    satAdd (satAdd a b) c = satAdd a (satAdd b c) := by
  unfold satAdd
  omega

lemma satAdd_le_max (a b : Nat) : satAdd a b ≤ USIZE_MAX := by
  unfold satAdd
  omega

lemma satAdd_zero_of_le {a : Nat} (h : a ≤ USIZE_MAX) : satAdd a 0 = a := by
  unfold satAdd
  omega

lemma foldl_satAdd_shift (t : List Nat) :
    ∀ a b, satAdd a (List.foldl satAdd b t)
      = List.foldl satAdd (satAdd a b) t := by
  induction t with
  | nil => intro a b; rfl
  | cons x t ih =>
    intro a b
    simp only [List.foldl_cons]
    rw [ih a (satAdd b x), satAdd_assoc]

/-- Every flattened entry's identifier strictly extends the `current`
prefix the walk started from. -/
lemma flatten_mem_identifier (opened : List (List α)) :
    ∀ (items : List (TreeItem α)) (current : List α),
      ∀ f ∈ flatten opened items current,
        ∃ t, t ≠ [] ∧ f.identifier = current ++ t := by
  intro items current
  induction items, current using flatten.induct opened with
  | case1 cur =>
    intro f hf
    simp [flatten] at hf
  | case2 ident h children rest cur ci ih1 ih2 =>
    intro f hf
    simp only [flatten] at hf
    rcases List.mem_cons.mp hf with rfl | hf
    · exact ⟨[ident], by simp, rfl⟩
    · rcases List.mem_append.mp hf with hf | hf
      · by_cases hf' : (cur ++ [ident]) ∈ opened
        · rw [if_pos hf'] at hf
          obtain ⟨t, ht, heq⟩ := ih1 f hf
          refine ⟨[ident] ++ t, by simp, ?_⟩
          rw [heq]
          show (cur ++ [ident]) ++ t = cur ++ ([ident] ++ t)
          rw [List.append_assoc]
        · rw [if_neg hf'] at hf
          simp at hf
      · exact ih2 f hf

/-- Every proper extension `P` of `current` that is itself properly
extended by a flattened entry's identifier must be in the open set. -/
lemma flatten_mem_middle_opened (opened : List (List α)) :
    ∀ (items : List (TreeItem α)) (current : List α),
      ∀ f ∈ flatten opened items current,
        ∀ P : List α, current.length < P.length → P ≠ f.identifier →
          (∃ t, f.identifier = P ++ t) → P ∈ opened := by
  intro items current
  induction items, current using flatten.induct opened with
  | case1 cur =>
    intro f hf
    simp [flatten] at hf
  | case2 ident h children rest cur ci ih1 ih2 =>
    intro f hf P hlen hne ⟨t, ht⟩
    simp only [flatten] at hf
    rcases List.mem_cons.mp hf with rfl | hf
    · exfalso
      apply hne
      have hlen2 : P.length + t.length = cur.length + 1 := by
        have := congrArg List.length ht
        simpa using this.symm
      have htnil : t = [] := List.length_eq_zero.mp (by omega)
      rw [htnil, List.append_nil] at ht
      exact ht.symm
    · rcases List.mem_append.mp hf with hf | hf
      · by_cases hf' : (cur ++ [ident]) ∈ opened
        · rw [if_pos hf'] at hf
          by_cases hcase : cur.length + 1 < P.length
          · refine ih1 f hf P ?_ hne ⟨t, ht⟩
            show (cur ++ [ident]).length < P.length
            simpa using hcase
          · -- `P` has exactly the child identifier's length, so `P` is it
            obtain ⟨u, hu, hequ⟩ := flatten_mem_identifier opened
              children (cur ++ [ident]) f hf
            have hlenP : P.length = cur.length + 1 := by omega
            have hinj := List.append_inj (ht ▸ hequ)
              (by show P.length = (cur ++ [ident]).length; simpa using hlenP)
            rw [hinj.1]
            exact hf'
        · rw [if_neg hf'] at hf
          simp at hf
      · exact ih2 f hf P hlen hne ⟨t, ht⟩

/-! ## Windowing lemmas -/

/-- Sum of `count` heights starting at index `s` (absent entries count
as 0). -/
def sumFrom (heights : List Nat) : Nat → Nat → Nat
  | _, 0 => 0
  | s, count + 1 => heights.getD s 0 + sumFrom heights (s + 1) count

lemma sumFrom_succ_right (heights : List Nat) :
    ∀ (count s : Nat),
      sumFrom heights s (count + 1)
        = sumFrom heights s count + heights.getD (s + count) 0 := by
  intro count
  induction count with
  | zero => intro s; simp [sumFrom]
  | succ c ih =>
    intro s
    have h1 : sumFrom heights s (c + 1 + 1)
        = heights.getD s 0 + sumFrom heights (s + 1) (c + 1) := rfl
    have h2 : sumFrom heights s (c + 1)
        = heights.getD s 0 + sumFrom heights (s + 1) c := rfl
    rw [h1, h2, ih (s + 1)]
    have hidx : s + 1 + c = s + (c + 1) := by omega
    rw [hidx]
    omega

lemma take_drop_sum (heights : List Nat) :
    ∀ (count s : Nat), s + count ≤ heights.length →
      ((heights.drop s).take count).sum = sumFrom heights s count := by
  intro count
  induction count with
  | zero => intro s h; simp [sumFrom]
  | succ c ih =>
    intro s h
    have hs : s < heights.length := by omega
    rw [List.drop_eq_getElem_cons hs, List.take_succ_cons, List.sum_cons,
      ih (s + 1) (by omega), sumFrom, List.getD_eq_getElem heights 0 hs]

lemma forwardCount_le_length (avail : Nat) :
    ∀ (l : List Nat) (acc : Nat), (forwardCount avail l acc).1 ≤ l.length := by
  intro l
  induction l with
  | nil => intro acc; simp [forwardCount]
  | cons h t ih =>
    intro acc
    rw [forwardCount]
    split
    · simp
    · simpa using ih (acc + h)

lemma forwardCount_sum (avail : Nat) :
    ∀ (l : List Nat) (acc : Nat),
      (forwardCount avail l acc).2
        = acc + (l.take (forwardCount avail l acc).1).sum := by
  intro l
  induction l with
  | nil => intro acc; simp [forwardCount]
  | cons h t ih =>
    intro acc
    rw [forwardCount]
    split
    · simp
    · rw [List.take_succ_cons, List.sum_cons, ih (acc + h)]
      omega

lemma shrinkFront_spec (heights : List Nat) (avail : Nat) :
    ∀ (start height : Nat), ∀ e, start ≤ e → e ≤ heights.length →
      height ≤ sumFrom heights start (e - start) →
      start ≤ (shrinkFront heights avail start height).1 ∧
      (shrinkFront heights avail start height).1 ≤ e ∧
      (shrinkFront heights avail start height).2
        ≤ sumFrom heights (shrinkFront heights avail start height).1
            (e - (shrinkFront heights avail start height).1) := by
  intro start height
  induction start, height
    using shrinkFront.induct heights avail with
  | case1 start height hlt hin ih =>
    intro e hse hel hsum
    rw [shrinkFront, if_pos hlt, if_pos hin]
    have hslt : start < e := by
      by_contra hc
      have hz : e - start = 0 := by omega
      rw [hz] at hsum
      simp [sumFrom] at hsum
      omega
    have hdec : sumFrom heights start (e - start)
        = heights.getD start 0 + sumFrom heights (start + 1) (e - (start + 1)) := by
      have hc : e - start = (e - (start + 1)) + 1 := by omega
      rw [hc, sumFrom]
    obtain ⟨h1, h2, h3⟩ := ih e (by omega) hel (by omega)
    exact ⟨by omega, h2, h3⟩
  | case2 start height hlt hout =>
    intro e hse hel hsum
    rw [shrinkFront, if_pos hlt, if_neg hout]
    exact ⟨le_refl _, hse, hsum⟩
  | case3 start height hnlt =>
    intro e hse hel hsum
    rw [shrinkFront, if_neg hnlt]
    exact ⟨le_refl _, hse, hsum⟩

lemma shrinkFront_le_sel (heights : List Nat) (avail : Nat) (selIdx : Nat)
    (hgd : heights.getD selIdx 0 ≤ avail) :
    ∀ (start height : Nat), start ≤ selIdx →
      height ≤ sumFrom heights start (selIdx + 1 - start) →
      (shrinkFront heights avail start height).1 ≤ selIdx := by
  intro start height
  induction start, height
    using shrinkFront.induct heights avail with
  | case1 start height hlt hin ih =>
    intro hss hsum
    rw [shrinkFront, if_pos hlt, if_pos hin]
    have hslt : start < selIdx := by
      by_contra hc
      have hone : selIdx + 1 - start = 1 := by omega
      rw [hone] at hsum
      have hsum1 : height ≤ heights.getD start 0 + 0 := hsum
      have hgs : heights.getD start 0 = heights.getD selIdx 0 := by
        have hes : start = selIdx := by omega
        rw [hes]
      omega
    have hdec : sumFrom heights start (selIdx + 1 - start)
        = heights.getD start 0
            + sumFrom heights (start + 1) (selIdx + 1 - (start + 1)) := by
      have hc : selIdx + 1 - start = (selIdx + 1 - (start + 1)) + 1 := by
        omega
      rw [hc, sumFrom]
    exact ih (by omega) (by omega)
  | case2 start height hlt hout =>
    intro hss hsum
    rw [shrinkFront, if_pos hlt, if_neg hout]
    exact hss
  | case3 start height hnlt =>
    intro hss hsum
    rw [shrinkFront, if_neg hnlt]
    exact hss

lemma satAdd_le_add (a b : Nat) : satAdd a b ≤ a + b := min_le_left _ _

lemma satAdd_eval (a b : Nat) (h : a + b < 2 ^ 64) : satAdd a b = a + b := by
  unfold satAdd USIZE_MAX
  omega

lemma growWindow_spec (heights : List Nat) (avail selIdx : Nat)
    (hsel : selIdx < heights.length) :
    ∀ (start e height : Nat), start ≤ e → e ≤ heights.length →
      height ≤ sumFrom heights start (e - start) →
      (growWindow heights avail selIdx start e height).1
          ≤ (growWindow heights avail selIdx start e height).2 ∧
      (growWindow heights avail selIdx start e height).2
          = max e (selIdx + 1) ∧
      (heights.getD selIdx 0 ≤ avail → start ≤ selIdx →
        (growWindow heights avail selIdx start e height).1 ≤ selIdx) := by
  intro start e height
  induction start, e, height
    using growWindow.induct heights avail selIdx with
  | case1 start e height hle ih =>
    intro hse hel hsum
    rw [growWindow, if_pos hle]
    have hstep : satAdd height (heights.getD e 0)
        ≤ sumFrom heights start (e + 1 - start) := by
      have hc : e + 1 - start = (e - start) + 1 := by omega
      rw [hc, sumFrom_succ_right]
      have hidx : start + (e - start) = e := by omega
      rw [hidx]
      have := satAdd_le_add height (heights.getD e 0)
      omega
    obtain ⟨hs1, hs2, hs3⟩ :=
      shrinkFront_spec heights avail start (satAdd height (heights.getD e 0))
        (e + 1) (by omega) (by omega) hstep
    obtain ⟨hg1, hg2, hg3⟩ := ih hs2 (by omega) hs3
    refine ⟨hg1, ?_, ?_⟩
    · rw [hg2]
      omega
    · intro hgd hss
      refine hg3 hgd ?_
      by_cases hcase : e < selIdx
      · omega
      · have hes : e = selIdx := by omega
        rw [hes] at hstep ⊢
        exact shrinkFront_le_sel heights avail selIdx hgd start
          (satAdd height (heights.getD selIdx 0)) hss hstep
  | case2 start e height hnle =>
    intro hse hel hsum
    rw [growWindow, if_neg hnle]
    exact ⟨hse, by omega, fun _ hss => hss⟩

lemma computeWindow_none (heights : List Nat) (avail offset lbi : Nat) :
    computeWindow heights avail offset lbi none
      = (min offset lbi,
          min offset lbi
            + (forwardCount avail (heights.drop (min offset lbi)) 0).1) := rfl

lemma computeWindow_some (heights : List Nat) (avail offset lbi i : Nat) :
    computeWindow heights avail offset lbi (some i)
      = growWindow heights avail i (min (min offset lbi) i)
          (min (min offset lbi) i
            + (forwardCount avail
                (heights.drop (min (min offset lbi) i)) 0).1)
          (forwardCount avail
            (heights.drop (min (min offset lbi) i)) 0).2 := rfl

lemma forwardCount_window (heights : List Nat) (avail s : Nat)
    (hs : s ≤ heights.length) :
    s + (forwardCount avail (heights.drop s) 0).1 ≤ heights.length ∧
    (forwardCount avail (heights.drop s) 0).2
      = sumFrom heights s (forwardCount avail (heights.drop s) 0).1 := by
  have h1 := forwardCount_le_length avail (heights.drop s) 0
  have h2 := forwardCount_sum avail (heights.drop s) 0
  rw [List.length_drop] at h1
  refine ⟨by omega, ?_⟩
  rw [h2, take_drop_sum heights _ s (by omega)]
  omega

lemma computeWindow_bounds (heights : List Nat) (avail offset lbi : Nat)
    (ensureIdx : Option Nat) (hlbi : lbi < heights.length)
    (hidx : ∀ i, ensureIdx = some i → i < heights.length) :
    (computeWindow heights avail offset lbi ensureIdx).1
        ≤ (computeWindow heights avail offset lbi ensureIdx).2 ∧
    (computeWindow heights avail offset lbi ensureIdx).2
        ≤ heights.length := by
  cases ensureIdx with
  | none =>
    rw [computeWindow_none]
    obtain ⟨hf1, -⟩ :=
      forwardCount_window heights avail (min offset lbi) (by omega)
    exact ⟨by omega, by omega⟩
  | some i =>
    have hi := hidx i rfl
    rw [computeWindow_some]
    generalize hcc :
      forwardCount avail (heights.drop (min (min offset lbi) i)) 0 = fc
    have hfw :=
      forwardCount_window heights avail (min (min offset lbi) i) (by omega)
    rw [hcc] at hfw
    obtain ⟨hf1, hf2⟩ := hfw
    obtain ⟨hg1, hg2, -⟩ := growWindow_spec heights avail i hi
      (min (min offset lbi) i) (min (min offset lbi) i + fc.1) fc.2
      (by omega) (by omega)
      (by
        rw [hf2]
        have hx : min (min offset lbi) i + fc.1 - min (min offset lbi) i
            = fc.1 := by omega
        rw [hx])
    refine ⟨hg1, ?_⟩
    rw [hg2]
    omega

lemma computeWindow_sel (heights : List Nat) (avail offset lbi i : Nat)
    (hi : i < heights.length) (hgd : heights.getD i 0 ≤ avail) :
    (computeWindow heights avail offset lbi (some i)).1 ≤ i ∧
    i < (computeWindow heights avail offset lbi (some i)).2 := by
  rw [computeWindow_some]
  generalize hcc :
    forwardCount avail (heights.drop (min (min offset lbi) i)) 0 = fc
  have hfw :=
    forwardCount_window heights avail (min (min offset lbi) i) (by omega)
  rw [hcc] at hfw
  obtain ⟨hf1, hf2⟩ := hfw
  obtain ⟨hg1, hg2, hg3⟩ := growWindow_spec heights avail i hi
    (min (min offset lbi) i) (min (min offset lbi) i + fc.1) fc.2
    (by omega) (by omega)
    (by
      rw [hf2]
      have hx : min (min offset lbi) i + fc.1 - min (min offset lbi) i
          = fc.1 := by omega
      rw [hx])
  refine ⟨hg3 hgd (by omega), ?_⟩
  rw [hg2]
  omega

lemma position_some (p : α → Bool) :
    ∀ (l : List α) (i : Nat), position p l = some i →
      ∃ x, l[i]? = some x ∧ p x = true := by
  intro l
  induction l with
  | nil => intro i h; simp [position] at h
  | cons x rest ih =>
    intro i h
    rw [position] at h
    by_cases hp : p x
    · rw [if_pos hp] at h
      injection h with h0
      subst h0
      exact ⟨x, by simp, hp⟩
    · rw [if_neg hp] at h
      obtain ⟨j, hj, hij⟩ := Option.map_eq_some'.mp h
      obtain ⟨y, hy, hpy⟩ := ih j hj
      subst hij
      exact ⟨y, by simpa [List.getElem?_cons_succ] using hy, hpy⟩

lemma position_none (p : α → Bool) :
    ∀ l : List α, (∀ x ∈ l, p x = false) → position p l = none := by
  intro l
  induction l with
  | nil => intro h; rfl
  | cons x rest ih =>
    intro h
    rw [position, if_neg (by simp [h x (List.mem_cons_self x rest)]),
      ih fun y hy => h y (List.mem_cons_of_mem x hy)]
    rfl

lemma buildRows_length :
    ∀ (l : List (Flattened α)) (y : Nat),
      (buildRows y l).length = l.length := by
  intro l
  induction l with
  | nil => intro y; rfl
  | cons f rest ih =>
    intro y
    rw [buildRows]
    simp [ih]

lemma buildRows_y_lb :
    ∀ (l : List (Flattened α)) (y : Nat) pr,
      pr ∈ buildRows y l → y ≤ pr.1 := by
  intro l
  induction l with
  | nil => intro y pr h; simp [buildRows] at h
  | cons f rest ih =>
    intro y pr h
    rw [buildRows] at h
    rcases List.mem_cons.mp h with rfl | h
    · simp
    · have := ih (y + f.height) pr h
      omega

lemma buildRows_mem_snd :
    ∀ (l : List (Flattened α)) (y : Nat) pr,
      pr ∈ buildRows y l → ∃ f ∈ l, pr.2 = f.identifier := by
  intro l
  induction l with
  | nil => intro y pr h; simp [buildRows] at h
  | cons f rest ih =>
    intro y pr h
    rw [buildRows] at h
    rcases List.mem_cons.mp h with rfl | h
    · exact ⟨f, List.mem_cons_self f rest, rfl⟩
    · obtain ⟨g, hg, hid⟩ := ih (f.height + y) pr (by
        convert h using 2
        omega)
      exact ⟨g, List.mem_cons_of_mem f hg, hid⟩

lemma buildRows_getElem? :
    ∀ (l : List (Flattened α)) (y k : Nat),
      (buildRows y l)[k]? = (l[k]?).map fun f =>
        (y + ((l.take k).map Flattened.height).sum, f.identifier) := by
  intro l
  induction l with
  | nil => intro y k; simp [buildRows]
  | cons f rest ih =>
    intro y k
    cases k with
    | zero =>
      rw [buildRows]
      simp
    | succ k =>
      rw [buildRows, List.getElem?_cons_succ, ih (y + f.height) k,
        List.getElem?_cons_succ]
      cases hk : rest[k]? with
      | none => simp
      | some g =>
        simp only [Option.map_some', List.take_succ_cons, List.map_cons,
          List.sum_cons, Option.some.injEq, Prod.mk.injEq]
        exact ⟨by omega, trivial⟩

lemma buildRows_find_rev :
    ∀ (l : List (Flattened α)) (y0 k py : Nat) (f : Flattened α),
      l[k]? = some f →
      y0 + ((l.take k).map Flattened.height).sum ≤ py →
      py < y0 + ((l.take k).map Flattened.height).sum + f.height →
      (buildRows y0 l).reverse.find? (fun pr => decide (pr.1 ≤ py))
        = some (y0 + ((l.take k).map Flattened.height).sum,
            f.identifier) := by
  intro l
  induction l with
  | nil => intro y0 k py f h; simp at h
  | cons g rest ih =>
    intro y0 k py f hk hy1 hy2
    rw [buildRows, List.reverse_cons, List.find?_append]
    cases k with
    | zero =>
      rw [List.getElem?_cons_zero] at hk
      injection hk with hk
      subst hk
      simp only [List.take_zero, List.map_nil, List.sum_nil,
        Nat.add_zero] at hy1 hy2 ⊢
      have hnone : (buildRows (y0 + g.height) rest).reverse.find?
          (fun pr => decide (pr.1 ≤ py)) = none := by
        rw [List.find?_eq_none]
        intro pr hpr
        have := buildRows_y_lb rest (y0 + g.height) pr
          (List.mem_reverse.mp hpr)
        simp only [decide_eq_true_eq]
        omega
      rw [hnone]
      simp only [Option.or]
      rw [List.find?_cons_of_pos _ (by simpa using hy1)]
    | succ k =>
      rw [List.getElem?_cons_succ] at hk
      simp only [List.take_succ_cons, List.map_cons, List.sum_cons]
        at hy1 hy2 ⊢
      have hr := ih (y0 + g.height) k py f hk (by omega) (by omega)
      rw [hr]
      simp only [Option.or, Option.some.injEq, Prod.mk.injEq]
      exact ⟨by omega, trivial⟩

lemma flatten_id_ne_nil (opened : List (List α))
    (items : List (TreeItem α)) (f : Flattened α)
    (hf : f ∈ flatten opened items []) : f.identifier ≠ [] := by
  obtain ⟨t, ht, heq⟩ := flatten_mem_identifier opened items [] f hf
  rw [heq]
  simpa using ht

/-- The render call on a non-degenerate area and a non-empty flattened
node list, written out as one record update. -/
lemma render_main (items : List (TreeItem α)) (area : Rect)
    (s : TreeState α) (hw : 1 ≤ area.width) (hh : 1 ≤ area.height)
    (hne : flatten s.opened items [] ≠ []) :
    render items area s =
      { s with
        offset :=
          (computeWindow ((flatten s.opened items []).map Flattened.height)
            area.height s.offset ((flatten s.opened items []).length - 1)
            (ensureIndex (flatten s.opened items []) s)).1
        ensureSelectedInViewOnNextRender := false
        lastBiggestIndex := (flatten s.opened items []).length - 1
        lastArea := area
        lastIdentifiers := (flatten s.opened items []).map Flattened.identifier
        lastRenderedIdentifiers :=
          buildRows area.y
            (((flatten s.opened items []).drop
                (computeWindow
                  ((flatten s.opened items []).map Flattened.height)
                  area.height s.offset
                  ((flatten s.opened items []).length - 1)
                  (ensureIndex (flatten s.opened items []) s)).1).take
              ((computeWindow
                  ((flatten s.opened items []).map Flattened.height)
                  area.height s.offset
                  ((flatten s.opened items []).length - 1)
                  (ensureIndex (flatten s.opened items []) s)).2
                - (computeWindow
                    ((flatten s.opened items []).map Flattened.height)
                    area.height s.offset
                    ((flatten s.opened items []).length - 1)
                    (ensureIndex (flatten s.opened items []) s)).1)) } := by
  simp only [render]
  rw [if_neg (by omega), if_neg (by simpa using hne)]

/-! ## The claims -/

/-- C4: Flatten round-trip example — on the example forest, flatten with
open-set `{}` yields the nodes `[a, b, h]` in that order; with `{b}` it
yields `[a, b, c, d, g, h]`; with `{b, b/d}` it yields
`[a, b, c, d, e, f, g, h]`; and the depths of the last sequence are
`[0, 0, 1, 1, 2, 2, 1, 0]`. -/
theorem flatten_round_trip_example :
    ((flatten ([] : List (List String)) TreeItem.example []).map
        (fun f => f.identifier.getLastD "") = ["a", "b", "h"]) ∧
    ((flatten [["b"]] TreeItem.example []).map
        (fun f => f.identifier.getLastD "") = ["a", "b", "c", "d", "g", "h"]) ∧
    ((flatten [["b"], ["b", "d"]] TreeItem.example []).map
        (fun f => f.identifier.getLastD "")
      = ["a", "b", "c", "d", "e", "f", "g", "h"]) ∧
    ((flatten [["b"], ["b", "d"]] TreeItem.example []).map Flattened.depth
      = [0, 0, 1, 1, 2, 2, 1, 0]) := by
  refine ⟨?_, ?_, ?_, ?_⟩ <;>
    simp [flatten, TreeItem.example, Flattened.depth]

/-- C6 (amended): `scroll_up(n)` sets the offset to `offset − n`
saturating at `0` and returns whether the offset changed; `scroll_down(n)`
sets the offset to `offset + n` (saturating) clamped to
`last_biggest_index` and likewise returns whether the offset changed
(before/after comparison) — it does not always return `true`. -/
theorem scroll_up_down_spec (s : TreeState α) (n : Nat) :
    ((s.scrollUp n).1.offset = s.offset - n) ∧
    ((s.scrollUp n).2 = true ↔ 0 < s.offset ∧ 0 < n) ∧
    ((s.scrollDown n).1.offset
        = min (satAdd s.offset n) s.lastBiggestIndex) ∧
    ((s.scrollDown n).2 = true ↔
      min (satAdd s.offset n) s.lastBiggestIndex ≠ s.offset) := by
  unfold TreeState.scrollUp TreeState.scrollDown satAdd
  refine ⟨rfl, ?_, rfl, ?_⟩
  · split
    · rename_i heq
      exact iff_of_false (by simp) (by omega)
    · rename_i hne
      exact iff_of_true rfl (by omega)
  · split
    · rename_i heq
      exact iff_of_false (by simp) (by omega)
    · rename_i hne
      exact iff_of_true rfl (by omega)

/-- C6 (counterexample to the claim as stated): `scroll_down` does not
always return `true` — on the default state (offset 0,
`last_biggest_index` 0) `scroll_down(1)` leaves the offset at 0 and
returns `false`. -/
theorem scroll_down_not_always_true :
    ((TreeState.default : TreeState Nat).scrollDown 1).2 = false := by
  decide

/-- C7: constructing a parent item succeeds and returns the item iff the
children's identifiers are pairwise distinct (`Nodup`); otherwise it
returns the duplicate-identifier error and no item is produced. -/
theorem tree_item_new_spec (ident : α) (h : Nat)
    (children : List (TreeItem α)) :
    (∀ item, TreeItem.new ident h children = .ok item ↔
      ((children.map TreeItem.identifier).Nodup ∧
        item = .mk ident h children)) ∧
    (¬ (children.map TreeItem.identifier).Nodup →
      TreeItem.new ident h children
        = .error "The children contain duplicate identifiers") := by
  have hlen : (children.map TreeItem.identifier).length = children.length :=
    children.length_map TreeItem.identifier
  have hiff :
      ((children.map TreeItem.identifier).dedup.length = children.length)
        ↔ (children.map TreeItem.identifier).Nodup := by
    rw [← hlen]
    exact dedup_length_eq_iff _
  unfold TreeItem.new
  constructor
  · intro item
    split
    · simp_all [eq_comm]
    · simp_all
  · intro hnd
    split
    · exact absurd (hiff.mp (by assumption)) hnd
    · rfl

/-- C7 (witness): two children sharing the identifier `"same"` make
construction fail with the duplicate-identifier error. -/
theorem tree_item_new_spec_witness :
    TreeItem.new "root" 1 [TreeItem.mk "same" 1 [], TreeItem.mk "same" 1 []]
      = .error "The children contain duplicate identifiers" :=
  (tree_item_new_spec "root" 1
      [TreeItem.mk "same" 1 [], TreeItem.mk "same" 1 []]).2 (by decide)

/-- C9: the open-set never contains the empty (root) path — it does not
hold it in the default state, and, from any state satisfying the
predicate, every state operation (and the render) preserves it; in
particular `open` of the empty path returns `false` without inserting,
`toggle` of the empty path returns `false`, and `key_right` with no
selection does not insert. -/
theorem root_not_in_open_set (α : Type) [DecidableEq α] :
    ([] ∉ (TreeState.default : TreeState α).opened) ∧
    (∀ s : TreeState α, [] ∉ s.opened →
      (∀ identifier, [] ∉ (s.select identifier).1.opened) ∧
      (∀ identifier, [] ∉ (s.openNode identifier).1.opened) ∧
      (∀ identifier, [] ∉ (s.close identifier).1.opened) ∧
      (∀ identifier, [] ∉ (s.toggle identifier).1.opened) ∧
      ([] ∉ s.toggleSelected.1.opened) ∧
      ([] ∉ s.closeAll.1.opened) ∧
      ([] ∉ s.selectFirst.1.opened) ∧
      ([] ∉ s.selectLast.1.opened) ∧
      (∀ n, [] ∉ (s.selectVisibleIndex n).1.opened) ∧
      (∀ f, [] ∉ (s.selectRelative f).1.opened) ∧
      (∀ p, [] ∉ (s.clickAt p).1.opened) ∧
      ([] ∉ s.scrollSelectedIntoView.opened) ∧
      (∀ n, [] ∉ (s.scrollUp n).1.opened) ∧
      (∀ n, [] ∉ (s.scrollDown n).1.opened) ∧
      ([] ∉ s.keyUp.1.opened) ∧
      ([] ∉ s.keyDown.1.opened) ∧
      ([] ∉ s.keyLeft.1.opened) ∧
      ([] ∉ s.keyRight.1.opened) ∧
      (∀ items area, [] ∉ (render items area s).opened)) ∧
    (∀ s : TreeState α, s.openNode [] = (s, false)) ∧
    (∀ s : TreeState α, s.toggle [] = (s, false)) ∧
    (∀ s : TreeState α, s.selected = [] → s.keyRight = (s, false)) := by
  refine ⟨by simp [TreeState.default], fun s h => ?_, fun s => rfl,
    fun s => rfl, fun s hsel => ?_⟩
  · exact ⟨fun _ => h, fun i => root_opened_openNode h i,
      fun i => root_opened_close h i, fun i => root_opened_toggle h i,
      root_opened_toggleSelected h, root_opened_closeAll h, h, h,
      fun _ => h, fun _ => h, fun p => root_opened_clickAt h p, h,
      fun _ => h, fun _ => h, h, h,
      root_opened_keyLeft h, root_opened_keyRight h,
      fun items area => (opened_render items area s) ▸ h⟩
  · unfold TreeState.keyRight
    simp [hsel]

/-- C9 (witness): preservation applied at the default state — opening
the path `[1]` keeps the root path out of the open set, and `key_right`
on the default (no selection) state is a `false` no-op. -/
theorem root_not_in_open_set_witness :
    ([] ∉ ((TreeState.default : TreeState Nat).openNode [1]).1.opened) ∧
    ((TreeState.default : TreeState Nat).keyRight
      = (TreeState.default, false)) :=
  ⟨(((root_not_in_open_set Nat).2.1 TreeState.default (by decide)).2.1) [1],
    (root_not_in_open_set Nat).2.2.2.2 TreeState.default rfl⟩

/-- C3 (amended): for every non-root path `P` not in the open set, no
descendant of `P` — a node whose identifier path strictly extends `P` —
appears in the output of flatten. -/
theorem closed_subtree_exclusion (opened : List (List α))
    (items : List (TreeItem α)) (P : List α) (hroot : P ≠ [])
    (hP : P ∉ opened) :
    ∀ f ∈ flatten opened items [], ¬∃ t, t ≠ [] ∧ f.identifier = P ++ t := by
  intro f hf ⟨t, ht, heq⟩
  apply hP
  refine flatten_mem_middle_opened opened items [] f hf P ?_ ?_ ⟨t, heq⟩
  · simpa using List.length_pos.mpr hroot
  · intro hPf
    rw [← hPf] at heq
    have hlen := congrArg List.length heq
    rw [List.length_append] at hlen
    exact ht (List.length_eq_zero.mp (by omega))

/-- C3 (witness): on a one-leaf forest with an empty open set, the node
`["a"]` is no descendant of the absent non-root path `["z"]`. -/
theorem closed_subtree_exclusion_witness :
    ¬((["a"] : List String) ≠ [] ∧
      (Flattened.mk ["a"] true 1 : Flattened String).identifier
        = ["z"] ++ ["a"]) :=
  fun h =>
    closed_subtree_exclusion [] [TreeItem.mk "a" 1 []] ["z"] (by decide)
      (by decide) (Flattened.mk ["a"] true 1) (by simp [flatten])
      ⟨["a"], h⟩

/-- C3 (counterexample to the claim as stated): for the root path
`P = []`, which is a path not in the open set, the claim fails — on the
one-leaf forest the emitted node `["a"]` strictly extends `[]` (by the
non-empty suffix `["a"]`), i.e. a descendant of `P` appears in the
flattened output. -/
theorem closed_subtree_exclusion_root_cex :
    (([] : List String) ∉ ([] : List (List String))) ∧
    (Flattened.mk ["a"] true 1 : Flattened String)
      ∈ flatten ([] : List (List String)) [TreeItem.mk "a" 1 []] [] ∧
    (Flattened.mk ["a"] true 1 : Flattened String).identifier
      = ([] : List String) ++ ["a"] ∧
    (["a"] : List String) ≠ [] :=
  ⟨by simp, by simp [flatten], rfl, by simp⟩

lemma total_required_height_eq_foldl (opened : List (List α)) :
    ∀ (items : List (TreeItem α)) (current : List α) (acc : Nat),
      acc ≤ USIZE_MAX →
      total_required_height opened items current acc
        = List.foldl satAdd acc
            ((flatten opened items current).map Flattened.height) := by
  intro items current
  induction items, current using flatten.induct opened with
  | case1 cur =>
    intro acc hacc
    simp [flatten, total_required_height]
  | case2 ident h children rest cur ci ih1 ih2 =>
    intro acc hacc
    have hci : ci = cur ++ [ident] := rfl
    rw [hci] at ih1
    simp only [flatten, total_required_height, List.map_cons,
      List.map_append, List.foldl_cons, List.foldl_append]
    by_cases hopen : (cur ++ [ident]) ∈ opened
    · rw [if_pos hopen, if_pos hopen]
      rw [ih2 _ (satAdd_le_max _ _)]
      congr 1
      rw [ih1 0 (by unfold USIZE_MAX; omega)]
      rw [foldl_satAdd_shift, satAdd_zero_of_le (satAdd_le_max _ _)]
    · rw [if_neg hopen, if_neg hopen]
      rw [ih2 _ (satAdd_le_max _ _)]
      simp

/-- C10: the standalone `total_required_height` recursion computes
exactly the saturating sum of the height fields of the nodes produced by
`flatten` with the same open set (which is how
`TreeData::total_required_height` computes it from `get_nodes`). -/
theorem total_required_height_eq_flatten_sum (opened : List (List α))
    (items : List (TreeItem α)) :
    total_required_height opened items [] 0
      = List.foldl satAdd 0 ((flatten opened items []).map Flattened.height) :=
  total_required_height_eq_foldl opened items [] 0 (by unfold USIZE_MAX; omega)

/-- C5: when the selected path does not appear in the current flattened
list (including the no-selection case), the starting scroll index is
`min(offset, last_biggest_index)` — windowing proceeds from the plain
top-of-offset window, preserving the pre-render scroll position up to
that clamp, and no rendered row carries the selected path (so no
selection highlight is drawn). -/
theorem selection_absent_plain_window (items : List (TreeItem α))
    (area : Rect) (s : TreeState α)
    (hw : 1 ≤ area.width) (hh : 1 ≤ area.height)
    (hne : flatten s.opened items [] ≠ [])
    (habs : ∀ f ∈ flatten s.opened items [], f.identifier ≠ s.selected) :
    (render items area s).offset
        = min s.offset ((flatten s.opened items []).length - 1) ∧
    (∀ pr ∈ (render items area s).lastRenderedIdentifiers,
      pr.2 ≠ s.selected) := by
  have hei : ensureIndex (flatten s.opened items []) s = none := by
    unfold ensureIndex
    split
    · exact position_none _ _ fun f hf => decide_eq_false (habs f hf)
    · rfl
  rw [render_main items area s hw hh hne, hei]
  dsimp only
  rw [computeWindow_none]
  refine ⟨rfl, ?_⟩
  intro pr hpr
  obtain ⟨f, hf, hid⟩ := buildRows_mem_snd _ _ pr hpr
  have hfm : f ∈ flatten s.opened items [] :=
    List.mem_of_mem_drop (List.mem_of_mem_take hf)
  rw [hid]
  exact habs f hfm

/-- C5 (witness): rendering a one-leaf tree with a stale selection and
offset 5 clamps the offset to `min 5 0`. -/
theorem selection_absent_plain_window_witness :
    (render [TreeItem.mk 0 1 []] (Rect.mk 0 0 4 3)
        ({ TreeState.default with
            offset := 5, selected := [9] } : TreeState Nat)).offset
      = min 5 ((flatten
          ({ TreeState.default with
              offset := 5, selected := [9] } : TreeState Nat).opened
          [TreeItem.mk 0 1 []] []).length - 1) :=
  (selection_absent_plain_window [TreeItem.mk 0 1 []] (Rect.mk 0 0 4 3)
    { TreeState.default with offset := 5, selected := [9] }
    (by decide) (by decide) (by simp [flatten, TreeState.default])
    (by simp [flatten, TreeState.default])).1

/-- C2 (amended): after a render with a non-zero viewport and a
non-empty flattened list, the offset is at most the node count, and at
most `node_count − 1` provided the ensure-selected expansion is not run
with a selected node taller than the viewport. -/
theorem offset_clamp_after_render (items : List (TreeItem α))
    (area : Rect) (s : TreeState α)
    (hw : 1 ≤ area.width) (hh : 1 ≤ area.height)
    (hne : flatten s.opened items [] ≠ []) :
    (render items area s).offset ≤ (flatten s.opened items []).length ∧
    ((∀ i n, ensureIndex (flatten s.opened items []) s = some i →
        (flatten s.opened items [])[i]? = some n →
        n.height ≤ area.height) →
      (render items area s).offset
        ≤ (flatten s.opened items []).length - 1) := by
  have hlen : ((flatten s.opened items []).map Flattened.height).length
      = (flatten s.opened items []).length :=
    List.length_map _ _
  have hlist : 1 ≤ (flatten s.opened items []).length :=
    List.length_pos.mpr hne
  have hidx : ∀ i, ensureIndex (flatten s.opened items []) s = some i →
      i < ((flatten s.opened items []).map Flattened.height).length := by
    intro i hi
    unfold ensureIndex at hi
    rw [hlen]
    split at hi
    · obtain ⟨x, hx, -⟩ := position_some _ _ _ hi
      have := List.getElem?_eq_some.mp hx
      exact this.1
    · exact absurd hi (by simp)
  rw [render_main items area s hw hh hne]
  dsimp only
  obtain ⟨hb1, hb2⟩ := computeWindow_bounds
    ((flatten s.opened items []).map Flattened.height) area.height
    s.offset ((flatten s.opened items []).length - 1)
    (ensureIndex (flatten s.opened items []) s) (by omega) hidx
  refine ⟨by omega, ?_⟩
  intro htall
  cases hE : ensureIndex (flatten s.opened items []) s with
  | none =>
    rw [computeWindow_none]
    exact min_le_right _ _
  | some i =>
    have hi := hidx i hE
    have hn : ∃ n, (flatten s.opened items [])[i]? = some n := by
      refine ⟨(flatten s.opened items []).get ⟨i, by omega⟩, ?_⟩
      exact List.getElem?_eq_getElem (by omega)
    obtain ⟨n, hn⟩ := hn
    have hgd : ((flatten s.opened items []).map Flattened.height).getD i 0
        ≤ area.height := by
      rw [List.getD_eq_getElem?_getD, List.getElem?_map, hn]
      exact htall i n hE hn
    obtain ⟨hs1, -⟩ := computeWindow_sel
      ((flatten s.opened items []).map Flattened.height) area.height
      s.offset ((flatten s.opened items []).length - 1) i hi hgd
    omega

/-- A state with the tall single item selected and ensure-selected
pending (input of the C2 counterexample). -/
def exampleTallState : TreeState Nat :=
  { TreeState.default with
      selected := [0]
      ensureSelectedInViewOnNextRender := true }

/-- A state with the second top-level item selected and ensure-selected
pending (input of the C1 counterexample and witness). -/
def examplePairState : TreeState Nat :=
  { TreeState.default with
      selected := [1]
      ensureSelectedInViewOnNextRender := true }

/-- C2 (counterexample to the claim as stated): rendering a single item
of height 3 into a 5×2 viewport with that item selected and
ensure-selected set leaves the offset at 1, while
`max(0, node_count − 1) = 0` — the sliding-window expansion walks past a
selected node taller than the viewport. -/
theorem offset_clamp_cex :
    (render [TreeItem.mk 0 3 []] (Rect.mk 0 0 5 2)
        exampleTallState).offset = 1 ∧
    (flatten exampleTallState.opened [TreeItem.mk 0 3 []] []).length
      = 1 := by
  constructor
  · simp [render, computeWindow, ensureIndex, flatten, position,
      forwardCount, growWindow, shrinkFront, satAdd, USIZE_MAX, buildRows,
      TreeState.default, exampleTallState]
  · simp [flatten, TreeState.default, exampleTallState]

/-- C2 (witness for the amended claim): a render with no
ensure-expansion (flag unset) keeps the offset within
`[0, node_count − 1]`. -/
theorem offset_clamp_after_render_witness :
    (render [TreeItem.mk 0 1 []] (Rect.mk 0 0 4 3)
        ({ TreeState.default with offset := 7 } : TreeState Nat)).offset
      ≤ (flatten
          ({ TreeState.default with offset := 7 } : TreeState Nat).opened
          [TreeItem.mk 0 1 []] []).length - 1 :=
  (offset_clamp_after_render [TreeItem.mk 0 1 []] (Rect.mk 0 0 4 3)
      { TreeState.default with offset := 7 } (by decide) (by decide)
      (by simp [flatten, TreeState.default])).2
    (by
      intro i n hi hn
      rw [ensureIndex] at hi
      simp [TreeState.default] at hi)

/-- C1 (amended): with a non-zero viewport, the ensure-selected flag
set, the selection resolving to index `i` in the flattened list, and —
the amendment — the selected node's height at most the viewport height,
the index `i` lies within `[offset, offset + rendered_count)` after the
render. -/
theorem selected_visible_in_window (items : List (TreeItem α))
    (area : Rect) (s : TreeState α) (i : Nat) (n : Flattened α)
    (hw : 1 ≤ area.width) (hh : 1 ≤ area.height)
    (hflag : s.ensureSelectedInViewOnNextRender = true)
    (hpos : position (fun f => decide (f.identifier = s.selected))
        (flatten s.opened items []) = some i)
    (hn : (flatten s.opened items [])[i]? = some n)
    (hnh : n.height ≤ area.height) :
    (render items area s).offset ≤ i ∧
    i < (render items area s).offset
        + (render items area s).lastRenderedIdentifiers.length := by
  have hne : flatten s.opened items [] ≠ [] := by
    intro hempty
    rw [hempty] at hpos
    simp [position] at hpos
  have hsel : s.selected ≠ [] := by
    obtain ⟨x, hxi, hpx⟩ := position_some _ _ _ hpos
    have hxm : x ∈ flatten s.opened items [] := List.getElem?_mem hxi
    have hxn := flatten_id_ne_nil s.opened items x hxm
    have hid : x.identifier = s.selected := of_decide_eq_true hpx
    rw [← hid]
    exact hxn
  have hE : ensureIndex (flatten s.opened items []) s = some i := by
    unfold ensureIndex
    rw [if_pos (by simp [hflag, hsel]), hpos]
  have hlen : ((flatten s.opened items []).map Flattened.height).length
      = (flatten s.opened items []).length :=
    List.length_map _ _
  have hilt : i < (flatten s.opened items []).length := by
    have := List.getElem?_eq_some.mp hn
    exact this.1
  have hgd : ((flatten s.opened items []).map Flattened.height).getD i 0
      ≤ area.height := by
    rw [List.getD_eq_getElem?_getD, List.getElem?_map, hn]
    exact hnh
  obtain ⟨hs1, hs2⟩ := computeWindow_sel
    ((flatten s.opened items []).map Flattened.height) area.height
    s.offset ((flatten s.opened items []).length - 1) i (by omega) hgd
  obtain ⟨hb1, hb2⟩ := computeWindow_bounds
    ((flatten s.opened items []).map Flattened.height) area.height
    s.offset ((flatten s.opened items []).length - 1) (some i)
    (by omega) (by intro j hj; injection hj with hj; omega)
  rw [render_main items area s hw hh hne]
  dsimp only
  rw [hE, buildRows_length]
  simp only [List.length_take, List.length_drop]
  omega

/-- C1 (counterexample to the claim as stated): with two items of
heights 1 and 3 in a 5×2 viewport, selection on the second and
ensure-selected set, the render ends with offset 2 and zero rendered
nodes, so the selection index 1 is not inside
`[offset, offset + rendered_count)`. -/
theorem selected_visible_cex :
    (examplePairState.ensureSelectedInViewOnNextRender = true) ∧
    (position (fun f => decide (f.identifier = examplePairState.selected))
        (flatten examplePairState.opened
          [TreeItem.mk 0 1 [], TreeItem.mk 1 3 []] []) = some 1) ∧
    ¬((render [TreeItem.mk 0 1 [], TreeItem.mk 1 3 []] (Rect.mk 0 0 5 2)
          examplePairState).offset ≤ 1 ∧
      1 < (render [TreeItem.mk 0 1 [], TreeItem.mk 1 3 []]
            (Rect.mk 0 0 5 2) examplePairState).offset
          + (render [TreeItem.mk 0 1 [], TreeItem.mk 1 3 []]
              (Rect.mk 0 0 5 2)
              examplePairState).lastRenderedIdentifiers.length) := by
  refine ⟨rfl, ?_, ?_⟩
  · simp [flatten, position, TreeState.default, examplePairState]
  · simp [render, computeWindow, ensureIndex, flatten, position,
      forwardCount, growWindow, shrinkFront, satAdd, USIZE_MAX, buildRows,
      TreeState.default, examplePairState]

/-- C1 (witness): two single-line items in a 5×2 viewport with the
second selected — the render keeps index 1 inside the window. -/
theorem selected_visible_in_window_witness :
    (render [TreeItem.mk 0 1 [], TreeItem.mk 1 1 []] (Rect.mk 0 0 5 2)
        examplePairState).offset ≤ 1 ∧
    1 < (render [TreeItem.mk 0 1 [], TreeItem.mk 1 1 []] (Rect.mk 0 0 5 2)
          examplePairState).offset
        + (render [TreeItem.mk 0 1 [], TreeItem.mk 1 1 []]
            (Rect.mk 0 0 5 2)
            examplePairState).lastRenderedIdentifiers.length :=
  selected_visible_in_window [TreeItem.mk 0 1 [], TreeItem.mk 1 1 []]
    (Rect.mk 0 0 5 2) examplePairState
    1 (Flattened.mk [1] true 1) (by decide) (by decide) rfl
    (by simp [flatten, position, TreeState.default, examplePairState])
    (by simp [flatten, TreeState.default, examplePairState]) (by decide)

lemma toggleSelected_snd {s : TreeState α} (h : s.selected ≠ []) :
    s.toggleSelected.2 = true := by
  unfold TreeState.toggleSelected TreeState.openNode
  rw [if_neg h]
  split <;> rfl

/-- C8 (amended): after a render, `click_at` at a position inside the
rendered area whose y-coordinate falls within a rendered node's row
resolves, selects (or toggles, when already selected) that node's
identifier path and returns `true`; at a position outside the last
rendered area it returns `false` and leaves the state unchanged.  (A
position inside the area but below the last rendered row resolves to
the last rendered node rather than being rejected.) -/
theorem click_at_spec (items : List (TreeItem α)) (area : Rect)
    (s : TreeState α) (p : Position) (k yk : Nat) (idk : List α)
    (nk : Flattened α)
    (hw : 1 ≤ area.width) (hh : 1 ≤ area.height)
    (hne : flatten s.opened items [] ≠ [])
    (hrow : (render items area s).lastRenderedIdentifiers[k]?
        = some (yk, idk))
    (hnode : (flatten s.opened items [])[(render items area s).offset + k]?
        = some nk)
    (hy1 : yk ≤ p.y) (hy2 : p.y < yk + nk.height)
    (hp : area.contains p) :
    (render items area s).renderedAt p = some idk ∧
    ((render items area s).clickAt p).2 = true ∧
    (idk ≠ s.selected →
      ((render items area s).clickAt p).1.selected = idk) ∧
    (idk = s.selected →
      (render items area s).clickAt p
        = (render items area s).toggleSelected) ∧
    (∀ q : Position, ¬ area.contains q →
      (render items area s).clickAt q = (render items area s, false)) := by
  have hrm := render_main items area s hw hh hne
  rw [hrm] at hrow hnode ⊢
  dsimp only at hrow hnode ⊢
  rw [buildRows_getElem?] at hrow
  obtain ⟨nk', hwin, heq⟩ := Option.map_eq_some'.mp hrow
  rw [Prod.mk.injEq] at heq
  obtain ⟨hyk, hidk⟩ := heq
  have hkc := (List.getElem?_eq_some.mp hwin).1
  have hkc2 : k
      < (computeWindow ((flatten s.opened items []).map Flattened.height)
          area.height s.offset ((flatten s.opened items []).length - 1)
          (ensureIndex (flatten s.opened items []) s)).2
        - (computeWindow ((flatten s.opened items []).map Flattened.height)
            area.height s.offset ((flatten s.opened items []).length - 1)
            (ensureIndex (flatten s.opened items []) s)).1 := by
    rw [List.length_take, List.length_drop] at hkc
    omega
  have hwin2 := hwin
  rw [List.getElem?_take_of_lt hkc2, List.getElem?_drop, hnode] at hwin2
  injection hwin2 with hwin2
  subst hwin2
  have hfind := buildRows_find_rev _ area.y k p.y nk hwin
    (by omega) (by omega)
  have hrend : TreeState.renderedAt
      { s with
        offset :=
          (computeWindow ((flatten s.opened items []).map Flattened.height)
            area.height s.offset ((flatten s.opened items []).length - 1)
            (ensureIndex (flatten s.opened items []) s)).1
        ensureSelectedInViewOnNextRender := false
        lastBiggestIndex := (flatten s.opened items []).length - 1
        lastArea := area
        lastIdentifiers := (flatten s.opened items []).map Flattened.identifier
        lastRenderedIdentifiers :=
          buildRows area.y
            (((flatten s.opened items []).drop
                (computeWindow
                  ((flatten s.opened items []).map Flattened.height)
                  area.height s.offset
                  ((flatten s.opened items []).length - 1)
                  (ensureIndex (flatten s.opened items []) s)).1).take
              ((computeWindow
                  ((flatten s.opened items []).map Flattened.height)
                  area.height s.offset
                  ((flatten s.opened items []).length - 1)
                  (ensureIndex (flatten s.opened items []) s)).2
                - (computeWindow
                    ((flatten s.opened items []).map Flattened.height)
                    area.height s.offset
                    ((flatten s.opened items []).length - 1)
                    (ensureIndex (flatten s.opened items []) s)).1)) } p
      = some idk := by
    unfold TreeState.renderedAt
    rw [if_pos hp, hfind]
    simp [hidk]
  have hnknil : nk.identifier ≠ [] :=
    flatten_id_ne_nil s.opened items nk (List.getElem?_mem hnode)
  refine ⟨hrend, ?_, ?_, ?_, ?_⟩
  · unfold TreeState.clickAt
    rw [hrend]
    dsimp only
    split
    · exact toggleSelected_snd (by
        rename_i hsel
        show s.selected ≠ []
        rw [← hsel, ← hidk]
        exact hnknil)
    · unfold TreeState.select
      rename_i hsel
      rw [if_neg fun hcon => hsel hcon.symm]
  · intro hne2
    unfold TreeState.clickAt
    rw [hrend]
    dsimp only
    rw [if_neg hne2]
    rfl
  · intro heq2
    unfold TreeState.clickAt
    rw [hrend]
    dsimp only
    rw [if_pos heq2]
  · intro q hq
    unfold TreeState.clickAt TreeState.renderedAt
    rw [if_neg hq]

/-- C8 (counterexample to the claim as stated): render one item of
height 1 into a 3×3 area; the rows bookkeeping is `[(0, [0])]`, so
nothing is rendered at y = 2 — yet `click_at (0,2)` (inside the area,
below the content) returns `true` and selects the last rendered node
instead of returning `false` with the state unchanged. -/
theorem click_at_cex :
    ((render [TreeItem.mk 0 1 []] (Rect.mk 0 0 3 3)
        (TreeState.default : TreeState Nat)).lastRenderedIdentifiers
      = [(0, [0])]) ∧
    (flatten (TreeState.default : TreeState Nat).opened
        [TreeItem.mk 0 1 []] [] = [Flattened.mk [0] true 1]) ∧
    (((render [TreeItem.mk 0 1 []] (Rect.mk 0 0 3 3)
        (TreeState.default : TreeState Nat)).clickAt
        (Position.mk 0 2)).2 = true) ∧
    (((render [TreeItem.mk 0 1 []] (Rect.mk 0 0 3 3)
        (TreeState.default : TreeState Nat)).clickAt
        (Position.mk 0 2)).1.selected = [0]) := by
  refine ⟨?_, ?_, ?_, ?_⟩ <;>
    simp [render, computeWindow, ensureIndex, flatten, position,
      forwardCount, growWindow, shrinkFront, satAdd, USIZE_MAX, buildRows,
      TreeState.default, TreeState.clickAt, TreeState.renderedAt,
      TreeState.select, Rect.contains, Rect.right, Rect.bottom, U16_MAX,
      List.find?]

/-- C8 (witness): clicking at (0,0) — inside the one rendered row —
resolves to and returns the identifier path of that node. -/
theorem click_at_spec_witness :
    (render [TreeItem.mk 0 1 []] (Rect.mk 0 0 3 3)
        (TreeState.default : TreeState Nat)).renderedAt
        (Position.mk 0 0) = some [0] ∧
    ((render [TreeItem.mk 0 1 []] (Rect.mk 0 0 3 3)
        (TreeState.default : TreeState Nat)).clickAt
        (Position.mk 0 0)).2 = true :=
  ⟨(click_at_spec [TreeItem.mk 0 1 []] (Rect.mk 0 0 3 3)
      TreeState.default (Position.mk 0 0) 0 0 [0]
      (Flattened.mk [0] true 1) (by decide) (by decide)
      (by simp [flatten, TreeState.default])
      (by
        simp [render, computeWindow, ensureIndex, flatten, position,
          forwardCount, growWindow, shrinkFront, satAdd, USIZE_MAX,
          buildRows, TreeState.default])
      (by
        simp [render, computeWindow, ensureIndex, flatten, position,
          forwardCount, growWindow, shrinkFront, satAdd, USIZE_MAX,
          buildRows, TreeState.default])
      (by decide) (by decide) (by decide)).1,
    (click_at_spec [TreeItem.mk 0 1 []] (Rect.mk 0 0 3 3)
      TreeState.default (Position.mk 0 0) 0 0 [0]
      (Flattened.mk [0] true 1) (by decide) (by decide)
      (by simp [flatten, TreeState.default])
      (by
        simp [render, computeWindow, ensureIndex, flatten, position,
          forwardCount, growWindow, shrinkFront, satAdd, USIZE_MAX,
          buildRows, TreeState.default])
      (by
        simp [render, computeWindow, ensureIndex, flatten, position,
          forwardCount, growWindow, shrinkFront, satAdd, USIZE_MAX,
          buildRows, TreeState.default])
      (by decide) (by decide) (by decide)).2.1⟩

end TreeWidget
